import Mathlib

/-! Verification of the conversational-memory and prompt-assembly pipeline of an
AI-companion chat application.

Texts are modelled as `List Char` (the code-point sequence of a JavaScript
string).  The key-value sorted-set store (Redis), the vector store and the
remote model are external collaborators; the sorted-set store is modelled with
its standard semantics (a member is unique per set, `zadd` on an existing
member updates its score), the vector-search collaborators as `Except`-valued
oracles.

Sources embedded here:
  - src/lib/memory.ts          (MemoryManager: writeToHistory, readLatestHistory,
                                seedChatHistory, vectorSearch, truncateText)
  - src/app/api/chat/[chatId]/route.ts   (POST handler: word-bag repetition
                                detector, model call options, response reconciler)
  - src/unnamed/part_003       (calculateMessageSimilarity: word-set repetition
                                detector with length-ratio pre-filters)
-/

/-- Model of JavaScript `String.prototype.split` with a string separator:
scans left to right, splitting at each non-overlapping occurrence of `sep`.
The `skip` counter consumes the remaining characters of a matched separator
so that the recursion is structural. -/
def jsSplitAux (sep : List Char) : List Char → Nat → List Char → List (List Char)
  | [], _, acc => [acc.reverse]
  | _ :: rest, skip + 1, acc => jsSplitAux sep rest skip acc
  | c :: rest, 0, acc =>
    if sep ≠ [] ∧ sep.isPrefixOf (c :: rest) then
      acc.reverse :: jsSplitAux sep rest (sep.length - 1) []
    else
      jsSplitAux sep rest 0 (c :: acc)

/-- JavaScript `text.split(sep)`.  An empty separator splits into single
characters, as in JavaScript. -/
def jsSplit (sep l : List Char) : List (List Char) :=
  if sep = [] then l.map (fun c => [c]) else jsSplitAux sep l 0 []

/-- Model of JavaScript `String.prototype.split(/\s+/)` up to empty fragments:
splits at every whitespace character, producing an empty fragment between
consecutive whitespace characters.  The callers filter out the empty
fragments, after which this agrees with the regex split. -/
def splitWsAux : List Char → List Char → List (List Char)
  | [], acc => [acc.reverse]
  | c :: rest, acc =>
    if c.isWhitespace then acc.reverse :: splitWsAux rest []
    else splitWsAux rest (c :: acc)

/-- Model of the JavaScript floating-point comparison `num / den > p / q`
for natural `num`, `den` and a positive rational threshold `p / q`, by exact
cross-multiplication.  JavaScript division by zero yields `NaN` for `0 / 0`
(not greater than the threshold) and `Infinity` for `n / 0` with `n > 0`
(greater than any finite threshold). -/
def jsRatioGt (num den p q : Nat) : Bool :=
  if den = 0 then num != 0 else decide (q * num > p * den)

/-- Difference used for JavaScript `Math.abs(a - b)` on naturals. -/
def absDiff (a b : Nat) : Nat := max a b - min a b

/-! Section: Repetition detector, word-bag variant
(src/app/api/chat/[chatId]/route.ts lines 56-103) -/

/-- Word list of a text:
`text.toLowerCase().split(" ").filter((word) => word.length > 0)`. -/
def wordsOf (text : List Char) : List (List Char) :=
  (jsSplit [' '] (text.map Char.toLower)).filter (fun w => decide (w.length > 0))

/-- Frequency-aware count of shared words: the route builds a frequency map
for each word list and sums `min` of the two counts over the distinct words
of the message. -/
def commonWordCount {α : Type} [DecidableEq α] (ms ps : List α) : Nat :=
  (ms.dedup).foldl (fun acc w => acc + min (List.count w ms) (List.count w ps)) 0

/-- The similarity ratio `commonWords / Math.max(msgWords.length,
promptWords.length)` as an exact rational; `none` models the `NaN` produced
when both word lists are empty. -/
def similarityScore (content prompt : List Char) : Option ℚ :=
  if max (wordsOf content).length (wordsOf prompt).length = 0 then none
  else some ((commonWordCount (wordsOf content) (wordsOf prompt) : ℚ) /
    ((max (wordsOf content).length (wordsOf prompt).length : Nat) : ℚ))

/-- The word-bag repetition filter of the route: a message with empty content
is never similar; otherwise the message is similar when the similarity ratio
exceeds the fixed threshold `0.6`. -/
def isSimilarMessage (content prompt : List Char) : Bool :=
  if content = [] then false
  else
    jsRatioGt (commonWordCount (wordsOf content) (wordsOf prompt))
      (max (wordsOf content).length (wordsOf prompt).length) 6 10

/-! Section: Repetition detector, word-set variant with pre-filters
(src/unnamed/part_003 lines 14-44, `calculateMessageSimilarity`) -/

/-- Word list of a text in the set variant:
`text.toLowerCase().split(/\s+/).filter((word) => Boolean(word))`. -/
def wordsSet (text : List Char) : List (List Char) :=
  (splitWsAux (text.map Char.toLower) []).filter (fun w => decide (w ≠ []))

/-- The word-set repetition detector with length-ratio pre-filters:
an empty content is never similar; a pair whose character lengths differ by
more than half the larger length is rejected early; so is a pair whose
distinct-word counts differ by more than half the larger count; otherwise the
pair is similar when the shared distinct-word count exceeds `0.6` of the
larger distinct-word count. -/
def calculateMessageSimilarity (content prompt : List Char) : Bool :=
  if content = [] then false
  else if jsRatioGt (absDiff content.length prompt.length)
      (max content.length prompt.length) 5 10 then false
  else if jsRatioGt (absDiff (wordsSet content).toFinset.card (wordsSet prompt).toFinset.card)
      (max (wordsSet content).toFinset.card (wordsSet prompt).toFinset.card) 5 10 then false
  else
    jsRatioGt ((wordsSet content).toFinset ∩ (wordsSet prompt).toFinset).card
      (max (wordsSet content).toFinset.card (wordsSet prompt).toFinset.card) 6 10

/-! Section: Response reconciler
(src/app/api/chat/[chatId]/route.ts lines 196-226; src/unnamed/part_003
lines 208-236) -/

/-- Removal of every comma character: `response.replaceAll(",", "")`. -/
def stripCommas (l : List Char) : List Char := l.filter (fun c => decide (c ≠ ','))

/-- The first newline-separated line: `text.split("\n")[0]`. -/
def firstLine (l : List Char) : List Char := l.takeWhile (fun c => decide (c ≠ '\n'))

/-- The reconciled response of the canonical route:
`response.replaceAll(",", "").split("\n")[0]`. -/
def finalResponse (raw : List Char) : List Char := firstLine (stripCommas raw)

/-- The reconciled response of the revision that takes the first line before
stripping commas: `String(modelResponse).split("\n")[0].replaceAll(",", "")`. -/
def finalResponseAlt (raw : List Char) : List Char := stripCommas (firstLine raw)

/-- JavaScript `String.prototype.trim`. -/
def trimChars (l : List Char) : List Char :=
  ((l.dropWhile Char.isWhitespace).reverse.dropWhile Char.isWhitespace).reverse

/-- The text persisted (to both the key-value history and the relational
message log) by the route: the trimmed reconciled response when the
reconciled response has length greater than 1, nothing otherwise. -/
def persistedResponse (raw : List Char) : Option (List Char) :=
  if (finalResponse raw).length > 1 then some (trimChars (finalResponse raw)) else none

/-- The single chunk streamed back to the caller, in either case. -/
def streamedChunk (raw : List Char) : List Char := finalResponse raw

/-! Section: Key-value sorted-set store (Redis collaborator model)

A sorted set keeps at most one entry per member; `zadd` with an existing
member updates its score.  Entries are kept ordered by score, ties broken
lexicographically by member, as Redis does. -/

/-- Lexicographic comparison of code-point sequences. -/
def charListLe : List Char → List Char → Bool
  | [], _ => true
  | _ :: _, [] => false
  | a :: as, b :: bs => if a < b then true else if b < a then false else charListLe as bs

/-- Sorted-set order on entries: by score, ties broken by member. -/
def entryLe (a b : Nat × List Char) : Prop :=
  a.1 < b.1 ∨ (a.1 = b.1 ∧ charListLe a.2 b.2 = true)

instance : DecidableRel entryLe := fun a b =>
  inferInstanceAs (Decidable (a.1 < b.1 ∨ (a.1 = b.1 ∧ charListLe a.2 b.2 = true)))

/-- The key-value store: an association of keys to sorted-set entry lists. -/
abbrev Store := List (List Char × List (Nat × List Char))

/-- The entry list of a key (empty when the key does not exist). -/
def storeEntries (st : Store) (key : List Char) : List (Nat × List Char) :=
  match st.lookup key with
  | some l => l
  | none => []

/-- Replace (or create) the entry list of a key. -/
def storeSet (st : Store) (key : List Char) (l : List (Nat × List Char)) : Store :=
  match st with
  | [] => [(key, l)]
  | (k, v) :: rest => if k = key then (key, l) :: rest else (k, v) :: storeSet rest key l

/-- Redis `ZADD key score member`: removes any existing entry with the same
member, then inserts `(score, member)` at its sorted position. -/
def zadd (st : Store) (key : List Char) (score : Nat) (member : List Char) : Store :=
  storeSet st key
    (List.orderedInsert entryLe (score, member)
      ((storeEntries st key).filter (fun e => decide (e.2 ≠ member))))

/-- Redis `EXISTS key` for a sorted set: true when the set has an entry. -/
def zexists (st : Store) (key : List Char) : Bool := !(storeEntries st key).isEmpty

/-- Redis `ZRANGE key lo hi BYSCORE`: the entries whose score lies in
`[lo, hi]`, in sorted-set order. -/
def zrangeByScore (st : Store) (key : List Char) (lo hi : Nat) : List (Nat × List Char) :=
  (storeEntries st key).filter (fun e => decide (lo ≤ e.1) && decide (e.1 ≤ hi))

/-! Section: MemoryManager (src/lib/memory.ts) -/

/-- Composite identifier addressing the key-value history; `userId` is
`none` when the user id is `undefined`. -/
structure CompanionKey where
  companionName : List Char
  modelName : List Char
  userId : Option (List Char)

/-- Template string of the Redis key; an `undefined` user id is interpolated
as the text `undefined`, as JavaScript template literals do. -/
def generateRedisCompanionKey (k : CompanionKey) : List Char :=
  k.companionName ++ ['-'] ++ k.modelName ++ ['-'] ++
    (match k.userId with
     | some u => u
     | none => "undefined".data)

/-- `writeToHistory(text, companionKey)` (src/lib/memory.ts lines 101-114):
refuses (returning the empty result `none` and leaving the store unchanged)
when the user id is `undefined`; otherwise appends `text` to the sorted set,
scored by the current time `now`, and returns the `zadd` result (the number
of newly added members: 0 when the member already existed). -/
def writeToHistory (st : Store) (now : Nat) (text : List Char) (k : CompanionKey) :
    Store × Option Nat :=
  if k.userId = none then (st, none)
  else
    (zadd st (generateRedisCompanionKey k) now text,
     some (if (storeEntries st (generateRedisCompanionKey k)).any
        (fun e => decide (e.2 = text)) then 0 else 1))

/-- `readLatestHistory(companionKey)` (src/lib/memory.ts lines 116-130):
refuses with the empty text when the user id is `undefined`; otherwise takes
the entries with score in `[0, now]`, keeps the last 100 (`slice(-100)`),
reverses twice, and joins the members with newlines. -/
def readLatestHistory (st : Store) (now : Nat) (k : CompanionKey) : List Char :=
  if k.userId = none then []
  else
    List.intercalate ['\n']
      (((((zrangeByScore st (generateRedisCompanionKey k) 0 now).drop
            ((zrangeByScore st (generateRedisCompanionKey k) 0 now).length - 100)).reverse).reverse).map
        Prod.snd)

/-- `seedChatHistory(seedContent, delimiter, companionKey)` (src/lib/memory.ts
lines 132-151): has no undefined-key guard; if the sorted set for the key
already exists it does nothing, otherwise it splits the seed text by the
delimiter and issues one `zadd` per line with a strictly increasing counter
as score.  The second component is the list of `(score, member)` writes
issued. -/
def seedChatHistory (st : Store) (seedContent : List Char) (delimiter : List Char)
    (k : CompanionKey) : Store × List (Nat × List Char) :=
  if zexists st (generateRedisCompanionKey k) then (st, [])
  else
    (((jsSplit delimiter seedContent).enum).foldl
      (fun acc e => zadd acc (generateRedisCompanionKey k) e.1 e.2) st,
     (jsSplit delimiter seedContent).enum)

/-! Section: Query truncation and vector search (src/lib/memory.ts lines 35-87) -/

/-- Encoded (UTF-8) byte length of a text, as produced by `TextEncoder`. -/
def byteLen (l : List Char) : Nat := (l.map Char.utf8Size).sum

/-- The binary search of `truncateText`: maintains `lo` with the prefix of
length `lo` within the byte budget and `hi` with the prefix of length `hi`
beyond it, and narrows with `mid = (lo + hi) / 2` while `lo < hi - 1`. -/
def truncLoop (text : List Char) (maxBytes lo hi : Nat) : Nat :=
  if _h : lo + 1 < hi then
    if byteLen (text.take ((lo + hi) / 2)) ≤ maxBytes then
      truncLoop text maxBytes ((lo + hi) / 2) hi
    else
      truncLoop text maxBytes lo ((lo + hi) / 2)
  else lo
termination_by hi - lo
decreasing_by
  · omega
  · omega

/-- `truncateText(text, maxBytes = 9700)`: returns the text unchanged when
its encoded length is within the budget, otherwise the prefix found by
binary search. -/
def truncateText (text : List Char) (maxBytes : Nat) : List Char :=
  if byteLen text ≤ maxBytes then text
  else text.take (truncLoop text maxBytes 0 text.length)

/-- `vectorSearch(recentChatHistory, companionFileName)` (src/lib/memory.ts
lines 35-87), with the collaborator calls abstracted as `Except`-valued
oracles in the order the code performs them: index access
(`vectorDBClient.Index`), embeddings construction, store construction
(`PineconeStore.fromExistingIndex`) — none of which is guarded — and the
similarity search (called with the truncated query, `k = 5` and
`minSimilarity = 0.7`), whose failure alone is caught
(`.catch(() => [])`) and replaced by the empty list. -/
def vectorSearch (pineconeIndex : Except String Unit) (embeddings : Except String Unit)
    (fromExistingIndex : Except String Unit)
    (similaritySearch : List Char → Nat → ℚ → Except String (List (List Char)))
    (recentChatHistory : List Char) : Except String (List (List Char)) := do
  let _ ← pineconeIndex
  let _ ← embeddings
  let _ ← fromExistingIndex
  let truncatedHistory := truncateText recentChatHistory 9700
  match similaritySearch truncatedHistory 5 (7 / 10) with
  | Except.ok docs => Except.ok docs
  | Except.error _ => Except.ok []

/-! Section: Model call options (src/app/api/chat/[chatId]/route.ts lines 11-22
and 133-194) -/

/-- The `input` object passed to `replicate.run`. -/
structure ReplicateInput where
  max_length : Nat
  temperature : ℚ
  top_p : ℚ
  prompt : List Char

/-- The options object passed to `replicate.run`; the Replicate client
accepts an optional abort signal here, `none` when the caller passes no
signal. -/
structure ReplicateRunOptions where
  input : ReplicateInput
  signal : Option Unit

/-- `CONFIG.TIMEOUT_MS` of the canonical route. -/
def CONFIG_TIMEOUT_MS : Nat := 30000

/-- The options the canonical route passes to `replicate.run`: only `input`
(with `max_length = CONFIG.MAX_LENGTH`, the repetition-dependent temperature
and `top_p = 0.9`); no abort signal is passed, although the route constructs
an `AbortController` and a timer that fires `controller.abort()` after
`CONFIG.TIMEOUT_MS`. -/
def chatRouteRunOptions (promptText : List Char) (isRepetitive : Bool) :
    ReplicateRunOptions :=
  { input :=
      { max_length := 1024
        temperature := if isRepetitive then 95 / 100 else 8 / 10
        top_p := 9 / 10
        prompt := promptText }
    signal := none }

/-! Section: Generic helper lemmas -/

theorem foldl_add_sum {α : Type} (f : α → Nat) :
    ∀ (l : List α) (a : Nat), l.foldl (fun acc w => acc + f w) a = a + (l.map f).sum := by
  intro l
  induction l with
  | nil => intro a; simp
  | cons x t ih =>
    intro a
    simp only [List.foldl_cons, List.map_cons, List.sum_cons, ih (a + f x)]
    omega

theorem commonWordCount_self {α : Type} [DecidableEq α] (l : List α) :
    commonWordCount l l = l.length := by
  unfold commonWordCount
  rw [foldl_add_sum, Nat.zero_add]
  simp only [Nat.min_self]
  exact List.sum_map_count_dedup_eq_length l

theorem commonWordCount_of_disjoint {α : Type} [DecidableEq α] {ms ps : List α}
    (h : ∀ w ∈ ms, w ∉ ps) : commonWordCount ms ps = 0 := by
  unfold commonWordCount
  rw [foldl_add_sum, Nat.zero_add]
  apply List.sum_eq_zero
  intro x hx
  rcases List.mem_map.mp hx with ⟨w, hw, rfl⟩
  have hwm : w ∈ ms := List.mem_dedup.mp hw
  have hz : List.count w ps = 0 := List.count_eq_zero.mpr (h w hwm)
  simp [hz]

theorem ratioGt_core_iff (num den p q : Nat) (hden : den ≠ 0) (hq : q ≠ 0) :
    q * num > p * den ↔ (p : ℚ) / q < (num : ℚ) / den := by
  have hq2 : (0:ℚ) < q := by exact_mod_cast Nat.pos_of_ne_zero hq
  have hd2 : (0:ℚ) < den := by exact_mod_cast Nat.pos_of_ne_zero hden
  rw [div_lt_div_iff₀ hq2 hd2]
  constructor
  · intro h
    have h2 : p * den < num * q := by rw [Nat.mul_comm num q]; exact h
    exact_mod_cast h2
  · intro h
    have h2 : p * den < num * q := by exact_mod_cast h
    rw [Nat.mul_comm num q] at h2
    exact h2

theorem jsRatioGt_iff (num den p q : Nat) (hden : den ≠ 0) (hq : q ≠ 0) :
    jsRatioGt num den p q = true ↔ (p : ℚ) / q < (num : ℚ) / den := by
  unfold jsRatioGt
  rw [if_neg hden, decide_eq_true_eq]
  exact ratioGt_core_iff num den p q hden hq

/-- Sanity link between the Boolean repetition flag and the rational
similarity score: for a nonempty content, the flag is set exactly when the
score exists and exceeds `0.6`. -/
theorem isSimilarMessage_iff_score (content prompt : List Char) (hc : content ≠ []) :
    isSimilarMessage content prompt = true ↔
      ∃ s, similarityScore content prompt = some s ∧ (6 : ℚ) / 10 < s := by
  rw [isSimilarMessage, if_neg hc]
  by_cases hd : max (wordsOf content).length (wordsOf prompt).length = 0
  · have hms : wordsOf content = [] :=
      List.length_eq_zero.mp (Nat.max_eq_zero_iff.mp hd).1
    have hnum : commonWordCount (wordsOf content) (wordsOf prompt) = 0 := by
      rw [hms]; rfl
    rw [similarityScore, if_pos hd, hnum]
    simp [jsRatioGt, hd]
  · rw [jsRatioGt_iff _ _ _ _ hd (by norm_num), similarityScore, if_neg hd]
    have h610 : ((6:Nat):ℚ) / ((10:Nat):ℚ) = (6:ℚ) / 10 := by norm_num
    rw [h610]
    constructor
    · intro h; exact ⟨_, rfl, h⟩
    · rintro ⟨s, hs, hlt⟩
      rwa [← Option.some.inj hs] at hlt

/-! Section: Claim C1 -/

/-- C1, counterexample: the empty text compared against itself has an
undefined similarity score (not 1) and is not flagged repetitive, refuting
the claim that any text compared against itself scores 1 and is flagged. -/
theorem c1_counterexample :
    ¬ (similarityScore [] [] = some 1 ∧ isSimilarMessage [] [] = true) := by decide

/-- C1, amended: for texts sharing zero (case-folded, whitespace-split)
words, the similarity score is 0 whenever at least one of them has a word,
and the candidate is never flagged repetitive; any text with at least one
word compared against itself has similarity score 1 and is flagged
repetitive under the fixed threshold 0.6. -/
theorem c1_amended :
    (∀ content prompt : List Char,
      (∀ w ∈ wordsOf content, w ∉ wordsOf prompt) →
      (max (wordsOf content).length (wordsOf prompt).length ≠ 0 →
        similarityScore content prompt = some 0) ∧
      isSimilarMessage content prompt = false) ∧
    (∀ t : List Char, wordsOf t ≠ [] →
      similarityScore t t = some 1 ∧ isSimilarMessage t t = true) := by
  constructor
  · intro content prompt hdisj
    have hcommon : commonWordCount (wordsOf content) (wordsOf prompt) = 0 :=
      commonWordCount_of_disjoint hdisj
    constructor
    · intro hmax
      rw [similarityScore, if_neg hmax, hcommon]
      simp
    · by_cases hc : content = []
      · simp [isSimilarMessage, hc]
      · rw [isSimilarMessage, if_neg hc, hcommon]
        unfold jsRatioGt
        by_cases hd : max (wordsOf content).length (wordsOf prompt).length = 0
        · simp [hd]
        · simp [hd]
  · intro t ht
    have hn : (wordsOf t).length ≠ 0 := (List.length_pos.mpr ht).ne'
    have htne : t ≠ [] := by
      intro h
      apply ht
      rw [h]
      decide
    have hq : ((wordsOf t).length : ℚ) ≠ 0 := Nat.cast_ne_zero.mpr hn
    constructor
    · rw [similarityScore, Nat.max_self, if_neg hn, commonWordCount_self, div_self hq]
    · rw [isSimilarMessage, if_neg htne, commonWordCount_self, Nat.max_self]
      unfold jsRatioGt
      rw [if_neg hn, decide_eq_true_eq]
      omega

/-- C1, witness. -/
theorem c1_amended_witness :
    isSimilarMessage "x".data "y".data = false ∧
    similarityScore "x".data "x".data = some 1 ∧
    isSimilarMessage "x".data "x".data = true :=
  ⟨(c1_amended.1 "x".data "y".data (by decide)).2,
   (c1_amended.2 "x".data (by decide)).1,
   (c1_amended.2 "x".data (by decide)).2⟩

/-! Section: Claim C2 -/

theorem filter_takeWhile_comm (p q : Char → Bool) (hpq : ∀ c, p c = false → q c = true) :
    ∀ l : List Char, (l.takeWhile q).filter p = (l.filter p).takeWhile q := by
  intro l
  induction l with
  | nil => simp
  | cons c t ih =>
    by_cases hp : p c
    · by_cases hq : q c
      · simp [hq, List.filter_cons, hp, List.takeWhile_cons, ih]
      · simp only [List.takeWhile_cons, hq, cond_false]
        simp only [Bool.not_eq_true] at hq
        simp [List.filter_cons, hp, List.takeWhile_cons, hq]
    · simp only [Bool.not_eq_true] at hp
      have hqc := hpq c hp
      simp [List.takeWhile_cons, hqc, List.filter_cons, hp, ih]

/-- C2: the reconciled response is the first newline-separated line of the
raw output with every comma removed (the two revision orderings agree); the
text is persisted to both stores exactly when its length exceeds 1 and it is
streamed as a single chunk in either case; the single-line output
`"Hello, friend,!"` is streamed and persisted as `"Hello friend!"`. -/
theorem c2_reconciler :
    (∀ raw : List Char, finalResponse raw = finalResponseAlt raw) ∧
    (∀ raw : List Char,
      (persistedResponse raw).isSome = decide ((finalResponse raw).length > 1)) ∧
    (∀ raw : List Char, streamedChunk raw = finalResponse raw) ∧
    streamedChunk "Hello, friend,!".data = "Hello friend!".data ∧
    persistedResponse "Hello, friend,!".data = some "Hello friend!".data := by
  refine ⟨?_, ?_, fun _ => rfl, by decide, by decide⟩
  · intro raw
    unfold finalResponse finalResponseAlt firstLine stripCommas
    refine (filter_takeWhile_comm _ _ ?_ raw).symm
    intro c h
    simp only [decide_eq_false_iff_not, not_not] at h
    subst h
    decide
  · intro raw
    by_cases h : (finalResponse raw).length > 1 <;> simp [persistedResponse, h]

/-! Section: Claim C9 -/

theorem sum_map_ite_mem {α : Type} [DecidableEq α] (ps : List α) :
    ∀ l : List α, (l.map (fun w => if w ∈ ps then 1 else 0)).sum
      = (l.filter (fun w => decide (w ∈ ps))).length := by
  intro l
  induction l with
  | nil => simp
  | cons x t ih =>
    by_cases h : x ∈ ps <;> simp [h, ih, List.filter_cons]
    omega

theorem commonWordCount_nodup_eq_inter_card {α : Type} [DecidableEq α]
    (ms ps : List α) (hms : ms.Nodup) :
    commonWordCount ms ps = (ms.toFinset ∩ ps.toFinset).card := by
  unfold commonWordCount
  rw [foldl_add_sum, Nat.zero_add, hms.dedup]
  have h1 : ∀ w ∈ ms, min (List.count w ms) (List.count w ps)
      = if w ∈ ps then 1 else 0 := by
    intro w hw
    rw [List.count_eq_one_of_mem hms hw]
    by_cases hp : w ∈ ps
    · rw [if_pos hp]
      exact Nat.min_eq_left (List.count_pos_iff.mpr hp)
    · rw [if_neg hp, List.count_eq_zero.mpr hp]
      simp
  rw [List.map_congr_left h1, sum_map_ite_mem]
  have hnd : (ms.filter (fun w => decide (w ∈ ps))).Nodup := hms.filter _
  rw [← List.toFinset_card_of_nodup hnd, List.toFinset_filter]
  congr 1
  ext x
  simp [Finset.mem_filter, Finset.mem_inter, List.mem_toFinset]

/-- C9, counterexample: on the candidate `"a a b b c"` and prompt
`"a b c"` the word-set variant flags repetitive while the word-bag variant
does not, so the two variants are not decision-equivalent. -/
theorem c9_counterexample :
    calculateMessageSimilarity "a a b b c".data "a b c".data ≠
      isSimilarMessage "a a b b c".data "a b c".data := by decide

/-- C9, amended: the two variants agree only conditionally — when the two
tokenizations coincide and are duplicate-free, a repetitive verdict of the
word-set variant implies a repetitive verdict of the word-bag variant (the
set variant is conservative because of its pre-filters); in general the
decisions can differ. -/
theorem c9_amended :
    ∀ content prompt : List Char,
      wordsOf content = wordsSet content →
      wordsOf prompt = wordsSet prompt →
      (wordsSet content).Nodup →
      (wordsSet prompt).Nodup →
      calculateMessageSimilarity content prompt = true →
      isSimilarMessage content prompt = true := by
  intro content prompt h1 h2 hn1 hn2 h5
  by_cases hc : content = []
  · rw [calculateMessageSimilarity, if_pos hc] at h5
    exact absurd h5 (by simp)
  · rw [calculateMessageSimilarity, if_neg hc] at h5
    split at h5
    · exact absurd h5 (by simp)
    · split at h5
      · exact absurd h5 (by simp)
      · rw [isSimilarMessage, if_neg hc, h1, h2,
          commonWordCount_nodup_eq_inter_card _ _ hn1,
          ← List.toFinset_card_of_nodup hn1, ← List.toFinset_card_of_nodup hn2]
        exact h5

/-- C9, witness. -/
theorem c9_amended_witness :
    isSimilarMessage "a b c".data "a b c".data = true :=
  c9_amended "a b c".data "a b c".data (by decide) (by decide) (by decide)
    (by decide) (by decide)

/-! Section: Store lemmas -/

theorem lookup_storeSet_self (key : List Char) (l : List (Nat × List Char)) :
    ∀ st : Store, (storeSet st key l).lookup key = some l := by
  intro st
  induction st with
  | nil => simp [storeSet, List.lookup]
  | cons p rest ih =>
    obtain ⟨k, v⟩ := p
    by_cases h : k = key
    · simp [storeSet, h, List.lookup]
    · simp only [storeSet, if_neg h, List.lookup]
      have hbeq : (key == k) = false := by
        simp [Ne.symm h]
      rw [hbeq]
      exact ih

theorem storeEntries_storeSet_self (st : Store) (key : List Char)
    (l : List (Nat × List Char)) : storeEntries (storeSet st key l) key = l := by
  rw [storeEntries, lookup_storeSet_self]

theorem storeEntries_zadd_self (st : Store) (key : List Char) (s : Nat) (m : List Char) :
    storeEntries (zadd st key s m) key
      = List.orderedInsert entryLe (s, m)
          ((storeEntries st key).filter (fun e => decide (e.2 ≠ m))) := by
  rw [zadd, storeEntries_storeSet_self]

theorem zexists_iff (st : Store) (key : List Char) :
    zexists st key = true ↔ storeEntries st key ≠ [] := by
  rw [zexists]
  cases h : storeEntries st key <;> simp [h]

theorem zexists_false_iff (st : Store) (key : List Char) :
    zexists st key = false ↔ storeEntries st key = [] := by
  rw [zexists]
  cases h : storeEntries st key <;> simp [h]

theorem zexists_zadd (st : Store) (key : List Char) (s : Nat) (m : List Char) :
    zexists (zadd st key s m) key = true := by
  rw [zexists_iff, storeEntries_zadd_self]
  intro h
  have hlen := List.orderedInsert_length entryLe
    ((storeEntries st key).filter (fun e => decide (e.2 ≠ m))) (s, m)
  rw [h] at hlen
  simp at hlen

theorem orderedInsert_append_of_lt (s : Nat) (m : List Char) :
    ∀ l : List (Nat × List Char), (∀ b ∈ l, b.1 < s) →
      List.orderedInsert entryLe (s, m) l = l ++ [(s, m)] := by
  intro l
  induction l with
  | nil => intro _; rfl
  | cons b t ih =>
    intro h
    have hb : b.1 < s := h b (List.mem_cons_self b t)
    have hne : ¬ entryLe (s, m) b := by
      rintro (h1 | ⟨h2, _⟩) <;> omega
    rw [List.orderedInsert, if_neg hne, ih (fun x hx => h x (List.mem_cons_of_mem b hx))]
    rfl

theorem filter_ne_eq_self {m : List Char} (l : List (Nat × List Char))
    (h : ∀ e ∈ l, e.2 ≠ m) : l.filter (fun e => decide (e.2 ≠ m)) = l :=
  List.filter_eq_self.mpr (fun a ha => by simp [h a ha])

theorem storeEntries_zadd_append (st : Store) (key : List Char) (s : Nat) (m : List Char)
    (hsc : ∀ e ∈ storeEntries st key, e.1 < s)
    (hm : ∀ e ∈ storeEntries st key, e.2 ≠ m) :
    storeEntries (zadd st key s m) key = storeEntries st key ++ [(s, m)] := by
  rw [storeEntries_zadd_self, filter_ne_eq_self _ hm,
    orderedInsert_append_of_lt s m _ hsc]

theorem seedFold_entries (key : List Char) :
    ∀ (lines : List (List Char)) (i : Nat) (st : Store),
      lines.Nodup →
      (∀ e ∈ storeEntries st key, e.1 < i) →
      (∀ e ∈ storeEntries st key, e.2 ∉ lines) →
      storeEntries ((List.enumFrom i lines).foldl (fun acc e => zadd acc key e.1 e.2) st) key
        = storeEntries st key ++ List.enumFrom i lines := by
  intro lines
  induction lines with
  | nil => intro i st _ _ _; simp [List.enumFrom]
  | cons m rest ih =>
    intro i st hnd hsc hmem
    rw [List.enumFrom_cons, List.foldl_cons]
    have hm : ∀ e ∈ storeEntries st key, e.2 ≠ m := by
      intro e he hcontra
      exact hmem e he (hcontra ▸ List.mem_cons_self m rest)
    have hstep := storeEntries_zadd_append st key i m hsc hm
    have hrest := ih (i + 1) (zadd st key i m) hnd.of_cons
      (by
        intro e he
        rw [hstep] at he
        rcases List.mem_append.mp he with h | h
        · exact Nat.lt_succ_of_lt (hsc e h)
        · rcases List.mem_singleton.mp h with rfl
          exact Nat.lt_succ_self i)
      (by
        intro e he
        rw [hstep] at he
        rcases List.mem_append.mp he with h | h
        · intro hr
          exact hmem e h (List.mem_cons_of_mem m hr)
        · rcases List.mem_singleton.mp h with rfl
          exact (List.nodup_cons.mp hnd).1)
    rw [hrest, hstep, List.append_assoc]
    rfl

theorem fst_lt_of_mem_enumFrom {α : Type} :
    ∀ (l : List α) (n : Nat) (e : Nat × α), e ∈ l.enumFrom n → e.1 < n + l.length := by
  intro l
  induction l with
  | nil => intro n e he; simp [List.enumFrom] at he
  | cons x t ih =>
    intro n e he
    rw [List.enumFrom_cons] at he
    rcases List.mem_cons.mp he with rfl | h
    · simp
    · have := ih (n + 1) e h
      simp only [List.length_cons]
      omega

theorem zexists_foldl_zadd (key : List Char) :
    ∀ (l : List (Nat × List Char)) (st : Store),
      (zexists st key = true ∨ l ≠ []) →
      zexists (l.foldl (fun acc e => zadd acc key e.1 e.2) st) key = true := by
  intro l
  induction l with
  | nil =>
    intro st h
    rcases h with h | h
    · simpa using h
    · exact absurd rfl h
  | cons e t ih =>
    intro st _
    rw [List.foldl_cons]
    exact ih (zadd st key e.1 e.2) (Or.inl (zexists_zadd st key e.1 e.2))

theorem seedChatHistory_not_exists (st : Store) (seed delim : List Char) (k : CompanionKey)
    (h : zexists st (generateRedisCompanionKey k) ≠ true) :
    seedChatHistory st seed delim k
      = (((jsSplit delim seed).enum).foldl
          (fun acc e => zadd acc (generateRedisCompanionKey k) e.1 e.2) st,
         (jsSplit delim seed).enum) := by
  rw [seedChatHistory, if_neg h]

/-! Section: Claim C3 -/

/-- C3, counterexample: `seedChatHistory` has no undefined-key guard — on a
key whose user id is `undefined` and a store where the derived key does not
exist, it performs writes (to the key interpolated with the text
`undefined`), refuting the claim that the refusal applies to all memory
operations including `seedChatHistory`. -/
theorem c3_counterexample :
    (seedChatHistory [] "a\n\nb".data "\n\n".data
      ⟨"c".data, "m".data, none⟩).2 ≠ [] := by decide

/-- C3, amended: for every key whose user id is `undefined`,
`writeToHistory` and `readLatestHistory` each return an empty result and
leave the store unchanged; `seedChatHistory` performs no such check. -/
theorem c3_amended :
    ∀ (st : Store) (now : Nat) (text : List Char) (k : CompanionKey),
      k.userId = none →
      writeToHistory st now text k = (st, none) ∧ readLatestHistory st now k = [] := by
  intro st now text k h
  constructor
  · rw [writeToHistory, if_pos h]
  · rw [readLatestHistory, if_pos h]

/-- C3, witness. -/
theorem c3_amended_witness :
    writeToHistory [] 0 "x".data ⟨"c".data, "m".data, none⟩ = ([], none) ∧
    readLatestHistory [] 0 ⟨"c".data, "m".data, none⟩ = [] :=
  c3_amended [] 0 "x".data ⟨"c".data, "m".data, none⟩ rfl

/-! Section: Claim C4 -/

/-- C4: `seedChatHistory` is idempotent — on a key whose sorted set already
exists it performs no writes and leaves the store unchanged; on a key with
no existing set it issues one write per delimiter-split line of the seed
text, with the strictly increasing sequence numbers `0, 1, 2, …` as scores,
and (when the split is nonempty, so that entries were inserted) a second
invocation is a no-op. -/
theorem c4_seed_idempotent :
    (∀ (st : Store) (seed delim : List Char) (k : CompanionKey),
      zexists st (generateRedisCompanionKey k) = true →
      seedChatHistory st seed delim k = (st, [])) ∧
    (∀ (st : Store) (seed delim : List Char) (k : CompanionKey),
      zexists st (generateRedisCompanionKey k) = false →
      (seedChatHistory st seed delim k).2 = (jsSplit delim seed).enum ∧
      ((seedChatHistory st seed delim k).2).map Prod.fst
        = List.range (jsSplit delim seed).length ∧
      (jsSplit delim seed ≠ [] →
        seedChatHistory (seedChatHistory st seed delim k).1 seed delim k
          = ((seedChatHistory st seed delim k).1, []))) := by
  constructor
  · intro st seed delim k h
    rw [seedChatHistory, if_pos h]
  · intro st seed delim k h
    have hne : zexists st (generateRedisCompanionKey k) ≠ true := by simp [h]
    refine ⟨?_, ?_, ?_⟩
    · rw [seedChatHistory_not_exists st seed delim k hne]
    · rw [seedChatHistory_not_exists st seed delim k hne]
      exact List.enum_map_fst _
    · intro hsplit
      have h2 : zexists (seedChatHistory st seed delim k).1
          (generateRedisCompanionKey k) = true := by
        rw [seedChatHistory_not_exists st seed delim k hne]
        apply zexists_foldl_zadd
        right
        intro hcontra
        apply hsplit
        have hlen := congrArg List.length hcontra
        rw [List.enum_length] at hlen
        exact List.length_eq_zero.mp hlen
      rw [seedChatHistory, if_pos h2]

/-- C4, witness. -/
theorem c4_seed_idempotent_witness :
    seedChatHistory [("c-m-u".data, [(0, "x".data)])] "a".data "\n".data
        ⟨"c".data, "m".data, some "u".data⟩
      = ([("c-m-u".data, [(0, "x".data)])], []) ∧
    (seedChatHistory [] "a\n\nb".data "\n\n".data
        ⟨"c".data, "m".data, some "u".data⟩).2
      = (jsSplit "\n\n".data "a\n\nb".data).enum :=
  ⟨c4_seed_idempotent.1 [("c-m-u".data, [(0, "x".data)])] "a".data "\n".data
      ⟨"c".data, "m".data, some "u".data⟩ (by decide),
   (c4_seed_idempotent.2 [] "a\n\nb".data "\n\n".data
      ⟨"c".data, "m".data, some "u".data⟩ (by decide)).1⟩

/-! Section: Claim C5 -/

/-- C5, counterexample: seeding the seed text `"x\n\nx"` (delimiter
`"\n\n"`, split `["x", "x"]`) on a fresh key and reading it back returns a
single line `"x"`, not the two seeded lines — the member-keyed sorted set
collapses duplicate lines — refuting the claim that a freshly seeded key
reads back the seeded lines of the delimiter split. -/
theorem c5_counterexample :
    readLatestHistory
        (seedChatHistory [] "x\n\nx".data "\n\n".data
          ⟨"c".data, "m".data, some "u".data⟩).1 10
        ⟨"c".data, "m".data, some "u".data⟩
      ≠ List.intercalate ['\n'] (jsSplit "\n\n".data "x\n\nx".data) := by decide

/-- C5, amended: for a well-formed key with no existing set, when the
delimiter split of the seed text has pairwise-distinct lines, at most the
window size (100) of them, and the read happens at a time at least the
largest seeded score, `readLatestHistory` after `seedChatHistory` returns
exactly the seeded lines, newline-joined, in the order of the delimiter
split. -/
theorem c5_amended :
    ∀ (st : Store) (k : CompanionKey) (u seed delim : List Char) (now : Nat),
      k.userId = some u →
      zexists st (generateRedisCompanionKey k) = false →
      (jsSplit delim seed).Nodup →
      (jsSplit delim seed).length ≤ 100 →
      (jsSplit delim seed).length ≤ now + 1 →
      readLatestHistory (seedChatHistory st seed delim k).1 now k
        = List.intercalate ['\n'] (jsSplit delim seed) := by
  intro st k u seed delim now hu hex hnd hwin hnow
  have hune : k.userId ≠ none := by simp [hu]
  have hnex : zexists st (generateRedisCompanionKey k) ≠ true := by simp [hex]
  have hempty : storeEntries st (generateRedisCompanionKey k) = [] :=
    (zexists_false_iff st _).mp hex
  have hentries : storeEntries (seedChatHistory st seed delim k).1
      (generateRedisCompanionKey k) = (jsSplit delim seed).enum := by
    rw [seedChatHistory_not_exists st seed delim k hnex]
    show storeEntries (((jsSplit delim seed).enum).foldl
        (fun acc e => zadd acc (generateRedisCompanionKey k) e.1 e.2) st)
        (generateRedisCompanionKey k) = (jsSplit delim seed).enum
    rw [List.enum_eq_enumFrom]
    rw [seedFold_entries (generateRedisCompanionKey k) (jsSplit delim seed) 0 st hnd
      (by rw [hempty]; intro e he; simp at he)
      (by rw [hempty]; intro e he; simp at he)]
    rw [hempty, List.nil_append]
  have hrange : zrangeByScore (seedChatHistory st seed delim k).1
      (generateRedisCompanionKey k) 0 now = (jsSplit delim seed).enum := by
    rw [zrangeByScore, hentries]
    apply List.filter_eq_self.mpr
    intro e he
    rw [List.enum_eq_enumFrom] at he
    have hfst := fst_lt_of_mem_enumFrom _ 0 e he
    simp only [Nat.zero_add] at hfst
    simp only [Bool.and_eq_true, decide_eq_true_eq]
    omega
  rw [readLatestHistory, if_neg hune, hrange, List.enum_length,
    Nat.sub_eq_zero_of_le hwin, List.drop_zero, List.reverse_reverse,
    List.enum_map_snd]

/-- C5, witness. -/
theorem c5_amended_witness :
    readLatestHistory
        (seedChatHistory [] "a\n\nb".data "\n\n".data
          ⟨"c".data, "m".data, some "u".data⟩).1 10
        ⟨"c".data, "m".data, some "u".data⟩
      = List.intercalate ['\n'] (jsSplit "\n\n".data "a\n\nb".data) :=
  c5_amended [] ⟨"c".data, "m".data, some "u".data⟩ "u".data "a\n\nb".data
    "\n\n".data 10 rfl (by decide) (by decide) (by decide) (by decide)

/-! Section: Claim C6 -/

/-- C6, counterexample: writing the same text `"hi"` twice (at times 1 and
2) to a well-formed key leaves a single entry in the sorted set, not two —
Redis `zadd` keys entries by member — refuting the claim that duplicate
text produces two distinct history entries. -/
theorem c6_counterexample :
    (zrangeByScore
        ((writeToHistory ((writeToHistory [] 1 "hi".data
            ⟨"c".data, "m".data, some "u".data⟩).1) 2 "hi".data
          ⟨"c".data, "m".data, some "u".data⟩).1)
        (generateRedisCompanionKey ⟨"c".data, "m".data, some "u".data⟩) 0 10).length
      = 1 ∧
    (zrangeByScore
        ((writeToHistory ((writeToHistory [] 1 "hi".data
            ⟨"c".data, "m".data, some "u".data⟩).1) 2 "hi".data
          ⟨"c".data, "m".data, some "u".data⟩).1)
        (generateRedisCompanionKey ⟨"c".data, "m".data, some "u".data⟩) 0 10).length
      ≠ 2 := by decide

theorem writeToHistory_store (st : Store) (now : Nat) (text : List Char)
    (k : CompanionKey) (hu : k.userId ≠ none) :
    (writeToHistory st now text k).1
      = zadd st (generateRedisCompanionKey k) now text := by
  rw [writeToHistory, if_neg hu]

theorem filter_eq_zadd_self (st : Store) (key : List Char) (s : Nat) (m : List Char) :
    (storeEntries (zadd st key s m) key).filter (fun e => decide (e.2 = m))
      = [(s, m)] := by
  rw [storeEntries_zadd_self]
  apply List.perm_singleton.mp
  have hperm := (List.perm_orderedInsert entryLe (s, m)
    ((storeEntries st key).filter (fun e => decide (e.2 ≠ m)))).filter
    (fun e => decide (e.2 = m))
  refine hperm.trans ?_
  rw [List.filter_cons]
  have hrest : ((storeEntries st key).filter
      (fun e => decide (e.2 ≠ m))).filter (fun e => decide (e.2 = m)) = [] := by
    apply List.filter_eq_nil_iff.mpr
    intro a ha
    have hmem := List.of_mem_filter ha
    simp only [decide_eq_true_eq] at hmem
    simp [hmem]
  rw [hrest]
  simp

/-- C6, amended: the history does deduplicate identical text — for every
well-formed key, writing the same text twice leaves exactly one entry for
that text, carrying the second write's timestamp as score; texts written at
distinct times with distinct contents each keep their own entry, scored by
their write time, so scores follow chronological order. -/
theorem c6_amended :
    (∀ (st : Store) (k : CompanionKey) (u text : List Char) (t1 t2 : Nat),
      k.userId = some u →
      ((storeEntries ((writeToHistory ((writeToHistory st t1 text k).1) t2 text k).1)
          (generateRedisCompanionKey k)).filter (fun e => decide (e.2 = text)))
        = [(t2, text)]) ∧
    (∀ (st : Store) (k : CompanionKey) (u a b : List Char) (t1 t2 : Nat),
      k.userId = some u → a ≠ b →
      (t1, a) ∈ storeEntries ((writeToHistory ((writeToHistory st t1 a k).1) t2 b k).1)
          (generateRedisCompanionKey k) ∧
      (t2, b) ∈ storeEntries ((writeToHistory ((writeToHistory st t1 a k).1) t2 b k).1)
          (generateRedisCompanionKey k)) := by
  constructor
  · intro st k u text t1 t2 hu
    have hune : k.userId ≠ none := by simp [hu]
    rw [writeToHistory_store _ _ _ _ hune, writeToHistory_store _ _ _ _ hune]
    exact filter_eq_zadd_self _ _ t2 text
  · intro st k u a b t1 t2 hu hab
    have hune : k.userId ≠ none := by simp [hu]
    rw [writeToHistory_store _ _ _ _ hune, writeToHistory_store _ _ _ _ hune]
    constructor
    · rw [storeEntries_zadd_self]
      apply (List.mem_orderedInsert entryLe).mpr
      right
      apply List.mem_filter.mpr
      constructor
      · rw [storeEntries_zadd_self]
        exact (List.mem_orderedInsert entryLe).mpr (Or.inl rfl)
      · simp [hab]
    · rw [storeEntries_zadd_self]
      exact (List.mem_orderedInsert entryLe).mpr (Or.inl rfl)

/-- C6, witness. -/
theorem c6_amended_witness :
    ((storeEntries ((writeToHistory ((writeToHistory [] 1 "hi".data
          ⟨"c".data, "m".data, some "u".data⟩).1) 2 "hi".data
        ⟨"c".data, "m".data, some "u".data⟩).1)
        (generateRedisCompanionKey ⟨"c".data, "m".data, some "u".data⟩)).filter
        (fun e => decide (e.2 = "hi".data)))
      = [(2, "hi".data)] ∧
    (1, "a".data) ∈ storeEntries ((writeToHistory ((writeToHistory [] 1 "a".data
          ⟨"c".data, "m".data, some "u".data⟩).1) 2 "b".data
        ⟨"c".data, "m".data, some "u".data⟩).1)
        (generateRedisCompanionKey ⟨"c".data, "m".data, some "u".data⟩) :=
  ⟨c6_amended.1 [] ⟨"c".data, "m".data, some "u".data⟩ "u".data "hi".data 1 2 rfl,
   (c6_amended.2 [] ⟨"c".data, "m".data, some "u".data⟩ "u".data "a".data "b".data
      1 2 rfl (by decide)).1⟩

/-! Section: Claim C7 -/

/-- C7, counterexample: a failure of the store-construction collaborator
inside `vectorSearch` propagates to the caller as an error instead of being
absorbed into the empty list, refuting the claim that a failure of any
collaborator call inside `vectorSearch` yields the empty list. -/
theorem c7_counterexample :
    vectorSearch (Except.ok ()) (Except.ok ()) (Except.error "boom")
      (fun _ _ _ => Except.ok []) "q".data = Except.error "boom" := rfl

/-- C7, amended: only the similarity-search step is guarded — when the
index access, the embeddings construction and the store construction all
succeed, `vectorSearch` never propagates an error: the search's own failure
is caught and replaced by the empty list, and a successful search result is
returned as is; a failure of the earlier steps propagates. -/
theorem c7_amended :
    ∀ (pineconeIndex embeddings fromExistingIndex : Except String Unit)
      (similaritySearch : List Char → Nat → ℚ → Except String (List (List Char)))
      (q : List Char),
      pineconeIndex = Except.ok () → embeddings = Except.ok () →
      fromExistingIndex = Except.ok () →
      vectorSearch pineconeIndex embeddings fromExistingIndex similaritySearch q
        = (match similaritySearch (truncateText q 9700) 5 (7 / 10) with
           | Except.ok docs => Except.ok docs
           | Except.error _ => Except.ok []) ∧
      ∃ docs, vectorSearch pineconeIndex embeddings fromExistingIndex similaritySearch q
        = Except.ok docs := by
  intro ia ei fe search q hia hei hfe
  subst hia
  subst hei
  subst hfe
  have hmain : vectorSearch (Except.ok ()) (Except.ok ()) (Except.ok ()) search q
      = (match search (truncateText q 9700) 5 (7 / 10) with
         | Except.ok docs => Except.ok docs
         | Except.error _ => Except.ok []) := rfl
  refine ⟨hmain, ?_⟩
  rw [hmain]
  cases hs : search (truncateText q 9700) 5 (7 / 10) with
  | ok docs => exact ⟨docs, rfl⟩
  | error e => exact ⟨[], rfl⟩

/-- C7, witness. -/
theorem c7_amended_witness :
    vectorSearch (Except.ok ()) (Except.ok ()) (Except.ok ())
      (fun _ _ _ => Except.error "fail") "q".data = Except.ok [] :=
  ((c7_amended (Except.ok ()) (Except.ok ()) (Except.ok ())
    (fun _ _ _ => Except.error "fail") "q".data rfl rfl rfl).1).trans rfl

/-! Section: Claim C8 -/

theorem byteLen_append (a b : List Char) : byteLen (a ++ b) = byteLen a + byteLen b := by
  simp [byteLen]

theorem byteLen_take_mono (l : List Char) (j k : Nat) (h : j ≤ k) :
    byteLen (l.take j) ≤ byteLen (l.take k) := by
  have h2 : (l.take k).take j = l.take j := by
    rw [List.take_take, Nat.min_eq_left h]
  calc byteLen (l.take j) = byteLen ((l.take k).take j) := by rw [h2]
    _ ≤ byteLen ((l.take k).take j) + byteLen ((l.take k).drop j) := Nat.le_add_right _ _
    _ = byteLen (l.take k) := by rw [← byteLen_append, List.take_append_drop]

theorem truncLoop_spec (text : List Char) (maxBytes : Nat) :
    ∀ lo hi, byteLen (text.take lo) ≤ maxBytes → maxBytes < byteLen (text.take hi) →
      lo < hi →
      byteLen (text.take (truncLoop text maxBytes lo hi)) ≤ maxBytes ∧
      maxBytes < byteLen (text.take (truncLoop text maxBytes lo hi + 1)) ∧
      lo ≤ truncLoop text maxBytes lo hi ∧ truncLoop text maxBytes lo hi < hi := by
  intro lo hi
  induction lo, hi using truncLoop.induct text maxBytes with
  | case1 lo hi h hmid ih =>
    intro h1 h2 h3
    rw [truncLoop, dif_pos h, if_pos hmid]
    have hrec := ih hmid h2 (by omega)
    exact ⟨hrec.1, hrec.2.1, by omega, hrec.2.2.2⟩
  | case2 lo hi h hmid ih =>
    intro h1 h2 h3
    rw [truncLoop, dif_pos h, if_neg hmid]
    have hrec := ih h1 (Nat.not_le.mp hmid) (by omega)
    exact ⟨hrec.1, hrec.2.1, hrec.2.2.1, by omega⟩
  | case3 lo hi h =>
    intro h1 h2 h3
    rw [truncLoop, dif_neg h]
    have hhi : hi = lo + 1 := by omega
    rw [hhi] at h2
    exact ⟨h1, h2, Nat.le_refl lo, by omega⟩

/-- C8: `truncateText` with the budget 9700 computes the longest prefix of
the input whose encoded (UTF-8) byte length does not exceed the budget: the
result is a prefix, its encoded length is at most 9700, no longer prefix
within the budget exists, and an input already within the budget is
returned unchanged. -/
theorem c8_truncateText :
    ∀ text : List Char,
      (∃ rest, truncateText text 9700 ++ rest = text) ∧
      byteLen (truncateText text 9700) ≤ 9700 ∧
      (∀ n : Nat, n ≤ text.length → byteLen (text.take n) ≤ 9700 →
        n ≤ (truncateText text 9700).length) ∧
      (byteLen text ≤ 9700 → truncateText text 9700 = text) := by
  intro text
  by_cases hfit : byteLen text ≤ 9700
  · rw [truncateText, if_pos hfit]
    exact ⟨⟨[], List.append_nil text⟩, hfit, fun n hn _ => hn, fun _ => rfl⟩
  · rw [truncateText, if_neg hfit]
    have htext : 0 < text.length := by
      rcases Nat.eq_zero_or_pos text.length with h0 | hpos
      · exfalso
        apply hfit
        rw [List.length_eq_zero.mp h0]
        simp [byteLen]
      · exact hpos
    have hspec := truncLoop_spec text 9700 0 text.length
      (by simp [byteLen]) (by rw [List.take_length]; omega) htext
    obtain ⟨hle, hgt, _, hlt⟩ := hspec
    have hrlen : (text.take (truncLoop text 9700 0 text.length)).length
        = truncLoop text 9700 0 text.length := by
      rw [List.length_take, Nat.min_eq_left (Nat.le_of_lt hlt)]
    refine ⟨⟨text.drop (truncLoop text 9700 0 text.length),
      List.take_append_drop _ text⟩, hle, ?_, fun h => absurd h hfit⟩
    intro n hn hbn
    rw [hrlen]
    by_contra hcon
    push_neg at hcon
    have hmono : byteLen (text.take (truncLoop text 9700 0 text.length + 1))
        ≤ byteLen (text.take n) :=
      byteLen_take_mono text _ n (by omega)
    omega

/-- C8, witness. -/
theorem c8_truncateText_witness :
    1 ≤ (truncateText "ab".data 9700).length ∧
    truncateText "ab".data 9700 = "ab".data :=
  ⟨(c8_truncateText "ab".data).2.2.1 1 (by decide) (by decide),
   (c8_truncateText "ab".data).2.2.2 (by decide)⟩

/-! Section: Claim C10 -/

/-- C10: the options the canonical route passes to `replicate.run` carry no
abort signal — although the route creates an `AbortController` and a timer
that calls `controller.abort()` after `CONFIG.TIMEOUT_MS = 30000`
milliseconds, the signal is never wired to the model call, so the timeout
cannot cancel it. -/
theorem c10_no_abort_signal :
    ∀ (promptText : List Char) (isRepetitive : Bool),
      (chatRouteRunOptions promptText isRepetitive).signal = none ∧
      CONFIG_TIMEOUT_MS = 30000 := by
  intro p b
  exact ⟨rfl, rfl⟩
